import Mathlib

/-!
Shallow embedding of the market_data_pipeline order-book core.

Python floats/Decimals for prices and sizes are modelled as rationals
(the code converts every incoming price/size with Decimal(str(x)) before
touching the ledger, so values are exact decimals), Python ints as Int,
dicts as association lists, and sortedcontainers.SortedDict as an
association list kept sorted in strictly ascending key order.
-/

namespace MDP

/-- Side enum from data_ingestion/models.py (str values "bid" / "ask"). -/
inductive Side where
  | bid
  | ask
deriving DecidableEq, Repr

/-- UpdateType enum from data_ingestion/models.py ("add" / "modify" / "delete"). -/
inductive UpdateType where
  | add
  | modify
  | delete
deriving DecidableEq, Repr

/-- The str value of a Side member (what side.encode() yields as text). -/
def sideStr : Side → String
  | Side.bid => "bid"
  | Side.ask => "ask"

/-- The str value of an UpdateType member. -/
def updateTypeStr : UpdateType → String
  | UpdateType.add => "add"
  | UpdateType.modify => "modify"
  | UpdateType.delete => "delete"

/-- MarketUpdate dataclass from data_ingestion/models.py. -/
structure MarketUpdate where
  timestamp : Int
  symbol : String
  price : ℚ
  size : ℚ
  side : Side
  update_type : UpdateType
  sequence_number : Int
  exchange_id : String
deriving DecidableEq, Repr

/-- OrderBookLevel from order_book/models.py: a price plus an order_id -> size dict
(modelled as an association list in insertion order). -/
structure OrderBookLevel where
  price : ℚ
  orders : List (String × ℚ)
deriving DecidableEq, Repr

/-- OrderBookLevel.total_size: sum of the per-order sizes. -/
def OrderBookLevel.total_size (l : OrderBookLevel) : ℚ :=
  (l.orders.map Prod.snd).sum

/-- OrderBookLevel.order_count: number of orders in the dict. -/
def OrderBookLevel.order_count (l : OrderBookLevel) : Nat :=
  l.orders.length

/-- PriceLevel from order_book/models.py. -/
structure PriceLevel where
  price : ℚ
  size : ℚ
  order_count : Nat
deriving DecidableEq, Repr

/-- OrderBookSnapshot from order_book/models.py. -/
structure OrderBookSnapshot where
  symbol : String
  timestamp : Int
  bids : List PriceLevel
  asks : List PriceLevel
  sequence_number : Int
deriving DecidableEq, Repr

/-- SortedDict assignment `d[k] = v`: insert keeping ascending key order,
overwriting an equal key in place. -/
def setKey (k : ℚ) (v : OrderBookLevel) :
    List (ℚ × OrderBookLevel) → List (ℚ × OrderBookLevel)
  | [] => [(k, v)]
  | (kk, vv) :: rest =>
    if k < kk then (k, v) :: (kk, vv) :: rest
    else if k = kk then (k, v) :: rest
    else (kk, vv) :: setKey k v rest

/-- SortedDict deletion `del d[k]` (no-op here when the key is absent;
the code only deletes keys it has just membership-tested). -/
def delKey (k : ℚ) :
    List (ℚ × OrderBookLevel) → List (ℚ × OrderBookLevel)
  | [] => []
  | (kk, vv) :: rest =>
    if k = kk then rest else (kk, vv) :: delKey k rest

/-- Membership test `k in d` for the price-keyed SortedDict. -/
def hasKey (k : ℚ) (l : List (ℚ × OrderBookLevel)) : Bool :=
  l.any (fun p => decide (p.1 = k))

/-- Dict lookup `d[k]` for the price-keyed SortedDict. -/
def getKeyQ? (k : ℚ) (l : List (ℚ × OrderBookLevel)) : Option OrderBookLevel :=
  (l.find? (fun p => decide (p.1 = k))).map Prod.snd

/-- Dict lookup returning an Option, used for string-keyed Python dicts. -/
def alistGet? {κ α : Type} [DecidableEq κ] (l : List (κ × α)) (k : κ) : Option α :=
  (l.find? (fun p => decide (p.1 = k))).map Prod.snd

/-- Python dict assignment `d[k] = v` for string-keyed dicts: overwrite in
place if present, else append. -/
def updKey {κ α : Type} [DecidableEq κ] (k : κ) (v : α) :
    List (κ × α) → List (κ × α)
  | [] => [(k, v)]
  | (kk, vv) :: rest =>
    if kk = k then (k, v) :: rest else (kk, vv) :: updKey k v rest

/-- OrderBook from order_book/book.py: symbol, two SortedDict sides,
last_update_time and sequence_number. -/
structure OrderBook where
  symbol : String
  bids : List (ℚ × OrderBookLevel)
  asks : List (ℚ × OrderBookLevel)
  last_update_time : Int
  sequence_number : Int
deriving DecidableEq, Repr

/-- OrderBook.__init__. -/
def OrderBook.init (symbol : String) : OrderBook :=
  { symbol := symbol, bids := [], asks := [], last_update_time := 0, sequence_number := 0 }

/-- The mutation part of OrderBook.process_update, reached only after both
guard clauses pass: apply the delete/modify/add to the chosen side, then
set last_update_time and sequence_number. -/
def OrderBook.applyAccepted (b : OrderBook) (u : MarketUpdate) : OrderBook :=
  let price := u.price
  let size := u.size
  let lvl : OrderBookLevel := { price := price, orders := [(toString u.sequence_number, size)] }
  let upd : List (ℚ × OrderBookLevel) → List (ℚ × OrderBookLevel) := fun side =>
    match u.update_type with
    | UpdateType.delete => delKey price side
    | UpdateType.modify => if hasKey price side then setKey price lvl side else side
    | UpdateType.add => setKey price lvl side
  if u.side = Side.bid then
    { b with bids := upd b.bids,
             last_update_time := u.timestamp, sequence_number := u.sequence_number }
  else
    { b with asks := upd b.asks,
             last_update_time := u.timestamp, sequence_number := u.sequence_number }

/-- OrderBook.process_update: reject on wrong symbol or stale sequence
number, otherwise mutate and report True.  (The try/except wrapper of the
source cannot fire on the modelled total operations.) -/
def OrderBook.process_update (b : OrderBook) (u : MarketUpdate) : Bool × OrderBook :=
  if u.symbol ≠ b.symbol then (false, b)
  else if u.sequence_number ≤ b.sequence_number then (false, b)
  else (true, b.applyAccepted u)

/-- OrderBook.get_price_levels: walk the side best-first (reversed keys
for bids), truncate to depth, and package each ledger entry. -/
def OrderBook.get_price_levels (b : OrderBook) (side : Side) (depth : Nat) : List PriceLevel :=
  let book_side := if side = Side.bid then b.bids else b.asks
  let entries := if side = Side.bid then book_side.reverse else book_side
  (entries.take depth).map (fun p =>
    { price := p.2.price, size := p.2.total_size, order_count := p.2.order_count })

/-- OrderBook.get_top_of_book: last key of bids (highest), first key of
asks (lowest). -/
def OrderBook.get_top_of_book (b : OrderBook) : Option PriceLevel × Option PriceLevel :=
  let best_bid := b.bids.getLast?.map (fun p =>
    { price := p.2.price, size := p.2.total_size, order_count := p.2.order_count : PriceLevel })
  let best_ask := b.asks.head?.map (fun p =>
    { price := p.2.price, size := p.2.total_size, order_count := p.2.order_count : PriceLevel })
  (best_bid, best_ask)

/-- OrderBook.get_snapshot (default depth 10). -/
def OrderBook.get_snapshot (b : OrderBook) : OrderBookSnapshot :=
  { symbol := b.symbol,
    timestamp := b.last_update_time,
    bids := b.get_price_levels Side.bid 10,
    asks := b.get_price_levels Side.ask 10,
    sequence_number := b.sequence_number }

/-- OrderBook.clear: empty both sides, touch nothing else. -/
def OrderBook.clear (b : OrderBook) : OrderBook :=
  { b with bids := [], asks := [] }

/-- Fold a list of updates through process_update, keeping only the state. -/
def OrderBook.processAll (b : OrderBook) (us : List MarketUpdate) : OrderBook :=
  us.foldl (fun bb u => (bb.process_update u).2) b

/-- A book state reachable from a freshly initialised book by some
sequence of processed updates. -/
def ReachableBook (b : OrderBook) : Prop :=
  ∃ sym us, b = OrderBook.processAll (OrderBook.init sym) us

/-- OrderBookManager from order_book/manager.py: symbol -> OrderBook dict. -/
structure OrderBookManager where
  books : List (String × OrderBook)
deriving DecidableEq

/-- OrderBookManager.get_book. -/
def OrderBookManager.get_book (m : OrderBookManager) (symbol : String) : Option OrderBook :=
  alistGet? m.books symbol

/-- OrderBookManager.get_or_create_book: also returns the (possibly
extended) registry, since Python mutates self.books in place. -/
def OrderBookManager.get_or_create_book (m : OrderBookManager) (symbol : String) :
    OrderBook × OrderBookManager :=
  match m.get_book symbol with
  | some b => (b, m)
  | none => (OrderBook.init symbol, { books := m.books ++ [(symbol, OrderBook.init symbol)] })

/-- OrderBookManager.process_update: get-or-create the book, run
process_update on it, and store the resulting book state back (Python
mutates the shared object; here the registry entry is rewritten). -/
def OrderBookManager.process_update (m : OrderBookManager) (u : MarketUpdate) :
    Bool × OrderBookManager :=
  let bm := m.get_or_create_book u.symbol
  let rb := bm.1.process_update u
  (rb.1, { books := updKey u.symbol rb.2 bm.2.books })

/-- CircularBuffer from data_ingestion/buffer.py: a deque with maxlen,
held oldest-first. -/
structure CircularBuffer where
  max_size : Nat
  buffer : List MarketUpdate
deriving DecidableEq, Repr

/-- CircularBuffer.add: deque.append with maxlen drops from the left once
the capacity is exceeded. -/
def CircularBuffer.add (b : CircularBuffer) (u : MarketUpdate) : CircularBuffer :=
  let l := b.buffer ++ [u]
  { b with buffer := if b.max_size < l.length then l.drop (l.length - b.max_size) else l }

/-- CircularBuffer.get_latest: Python list(buffer)[-n:].  For n >= 1 the
slice [-n:] is the suffix of length min n len; for n = 0 it is [0:], the
whole list. -/
def CircularBuffer.get_latest (b : CircularBuffer) (n : Nat) : List MarketUpdate :=
  if n = 0 then b.buffer else b.buffer.drop (b.buffer.length - n)

/-- FeedHandler state from data_ingestion/feed_handler.py (the logger and
the async wrappers carry no state). -/
structure FeedHandler where
  symbols : List String
  buffer : CircularBuffer
  sequence_gap_threshold : Int
  last_sequence_numbers : List (String × Int)
  book_manager : OrderBookManager
  book_update_counts : List (String × Int)

/-- FeedHandler._handle_large_sequence_gap: look the book up (not
get_or_create) and clear it if present; start/end sequence arguments only
feed the log line. -/
def handle_large_sequence_gap (m : OrderBookManager) (symbol : String) : OrderBookManager :=
  match m.get_book symbol with
  | none => m
  | some b => { books := updKey symbol b.clear m.books }

/-- The per-symbol last observed sequence number, defaulting to 0 as in
last_sequence_numbers.get(symbol, 0). -/
def FeedHandler.lastSeq (h : FeedHandler) (symbol : String) : Int :=
  (alistGet? h.last_sequence_numbers symbol).getD 0

/-- FeedHandler.process_update: drop unknown symbols; classify the
sequence gap and clear the book on a large one; record the observed
sequence number unconditionally; buffer the update; feed it to the book
manager and count accepted updates (_check_book_state only logs). -/
def FeedHandler.process_update (h : FeedHandler) (u : MarketUpdate) :
    Option MarketUpdate × FeedHandler :=
  if ¬ h.symbols.contains u.symbol then (none, h)
  else
    let last_seq := h.lastSeq u.symbol
    let seq_gap := u.sequence_number - last_seq - 1
    let m0 :=
      if 0 < seq_gap then
        if h.sequence_gap_threshold < seq_gap then handle_large_sequence_gap h.book_manager u.symbol
        else h.book_manager
      else h.book_manager
    let lastSeqs := updKey u.symbol u.sequence_number h.last_sequence_numbers
    let buf := h.buffer.add u
    let rm := OrderBookManager.process_update m0 u
    let counts :=
      if rm.1 then
        updKey u.symbol ((alistGet? h.book_update_counts u.symbol).getD 0 + 1) h.book_update_counts
      else h.book_update_counts
    (some u,
     { h with buffer := buf, last_sequence_numbers := lastSeqs,
              book_manager := rm.2, book_update_counts := counts })

/-- A slot of a struct format string: unsigned int, IEEE float, or a
fixed-width byte string, each with its byte width. -/
inductive SlotType where
  | uint (bytes : Nat)
  | float (bytes : Nat)
  | str (len : Nat)
deriving DecidableEq, Repr

/-- The format string "!QddfII12s12s" used by both to_binary and
from_binary: Q, d, d, f, I, I, 12s, 12s. -/
def packFormat : List SlotType :=
  [SlotType.uint 8, SlotType.float 8, SlotType.float 8, SlotType.float 4,
   SlotType.uint 4, SlotType.uint 4, SlotType.str 12, SlotType.str 12]

/-- A Python value handed to struct.pack / produced by struct.unpack. -/
inductive PackVal where
  | int (n : Int)
  | float (q : ℚ)
  | bytes (s : String)
deriving DecidableEq, Repr

/-- Whether struct.pack accepts a value for a slot (ints coerce into
numeric slots; bytes only fit s slots; a float slot refuses bytes). -/
def valMatches : SlotType → PackVal → Bool
  | SlotType.uint _, PackVal.int _ => true
  | SlotType.float _, PackVal.int _ => true
  | SlotType.float _, PackVal.float _ => true
  | SlotType.str _, PackVal.bytes _ => true
  | _, _ => false

/-- struct.pack: error unless the argument count equals the slot count
and every value fits its slot; otherwise the packed record, modelled as
the typed value list. -/
def structPack (fmt : List SlotType) (args : List PackVal) : Except String (List PackVal) :=
  if args.length ≠ fmt.length then
    Except.error "pack expected a different number of items"
  else if (fmt.zip args).all (fun p => valMatches p.1 p.2) then
    Except.ok args
  else
    Except.error "argument does not match format slot"

/-- The values MarketUpdate.to_binary passes to struct.pack, in order:
timestamp, price, size, side.encode(), update_type.encode(),
sequence_number, exchange_id.encode() — seven values, and none of them is
the symbol. -/
def MarketUpdate.to_binary_args (u : MarketUpdate) : List PackVal :=
  [PackVal.int u.timestamp, PackVal.float u.price, PackVal.float u.size,
   PackVal.bytes (sideStr u.side), PackVal.bytes (updateTypeStr u.update_type),
   PackVal.int u.sequence_number, PackVal.bytes u.exchange_id]

/-- MarketUpdate.to_binary: struct.pack of the format with those values. -/
def MarketUpdate.to_binary (u : MarketUpdate) : Except String (List PackVal) :=
  structPack packFormat u.to_binary_args

/-- bytes.decode() on an unpacked value: only byte-string slots decode;
calling .decode() on an unpacked number raises AttributeError. -/
def decodeVal : PackVal → Except String String
  | PackVal.bytes s => Except.ok s
  | _ => Except.error "object has no attribute decode"

/-- str.strip of NUL padding, applied after decoding a fixed-width slot. -/
def stripNull (s : String) : String :=
  String.mk (((s.data.dropWhile (fun c => c = Char.ofNat 0)).reverse.dropWhile
    (fun c => c = Char.ofNat 0)).reverse)

/-- Side(value) constructor lookup. -/
def parseSide (s : String) : Except String Side :=
  if s = "bid" then Except.ok Side.bid
  else if s = "ask" then Except.ok Side.ask
  else Except.error "not a valid Side"

/-- UpdateType(value) constructor lookup. -/
def parseUpdateType (s : String) : Except String UpdateType :=
  if s = "add" then Except.ok UpdateType.add
  else if s = "modify" then Except.ok UpdateType.modify
  else if s = "delete" then Except.ok UpdateType.delete
  else Except.error "not a valid UpdateType"

/-- The unpacked value a numeric slot yields, as an Int. -/
def expectInt : PackVal → Except String Int
  | PackVal.int n => Except.ok n
  | _ => Except.error "expected an integer value"

/-- The unpacked value a float slot yields, as a rational. -/
def expectFloat : PackVal → Except String ℚ
  | PackVal.float q => Except.ok q
  | PackVal.int n => Except.ok (n : ℚ)
  | _ => Except.error "expected a float value"

/-- MarketUpdate.from_binary: unpack with the same format, then read
timestamp from slot 0, symbol and side both from slot 3 (a float slot),
price/size from slots 1/2, update_type from slot 4, sequence_number from
slot 5 and exchange_id from slot 6. -/
def MarketUpdate.from_binary (data : List PackVal) : Except String MarketUpdate :=
  if data.length ≠ packFormat.length then
    Except.error "unpack requires a different number of values"
  else do
    let ts ← expectInt (data.getD 0 (PackVal.int 0))
    let price ← expectFloat (data.getD 1 (PackVal.int 0))
    let size ← expectFloat (data.getD 2 (PackVal.int 0))
    let symRaw ← decodeVal (data.getD 3 (PackVal.int 0))
    let sideRaw ← decodeVal (data.getD 3 (PackVal.int 0))
    let side ← parseSide (stripNull sideRaw)
    let utRaw ← decodeVal (data.getD 4 (PackVal.int 0))
    let ut ← parseUpdateType (stripNull utRaw)
    let seq ← expectInt (data.getD 5 (PackVal.int 0))
    let exRaw ← decodeVal (data.getD 6 (PackVal.int 0))
    Except.ok
      { timestamp := ts, symbol := stripNull symRaw, price := price, size := size,
        side := side, update_type := ut, sequence_number := seq,
        exchange_id := stripNull exRaw }

/-- Well-formedness of one SortedDict side: keys strictly ascending, each
ledger entry's stored price equals its key, and each entry holds exactly
one order contribution. -/
def SideWF (l : List (ℚ × OrderBookLevel)) : Prop :=
  l.Pairwise (fun a b => a.1 < b.1) ∧ ∀ p ∈ l, p.2.price = p.1 ∧ p.2.orders.length = 1

/-- Well-formedness of a whole book: both sides well-formed. -/
def OrderBook.WF (b : OrderBook) : Prop :=
  SideWF b.bids ∧ SideWF b.asks

/-- A concrete update, for witness states. -/
def mkUpdate (sym : String) (price : ℚ) (size : ℚ) (side : Side)
    (ut : UpdateType) (seq : Int) : MarketUpdate :=
  { timestamp := seq, symbol := sym, price := price, size := size, side := side,
    update_type := ut, sequence_number := seq, exchange_id := "SIM" }

/-- A concrete accepted-update history. -/
def exampleUpdates : List MarketUpdate :=
  [mkUpdate "A" 10 1 Side.bid UpdateType.add 1,
   mkUpdate "A" 12 2 Side.bid UpdateType.add 2,
   mkUpdate "A" 15 3 Side.ask UpdateType.add 3,
   mkUpdate "A" 14 4 Side.ask UpdateType.add 4]

/-- The book reached by that history. -/
def exampleBook : OrderBook :=
  OrderBook.processAll (OrderBook.init "A") exampleUpdates

/-- FeedHandler.__init__ with the default buffer size and gap threshold. -/
def mkHandler (symbols : List String) : FeedHandler :=
  { symbols := symbols,
    buffer := { max_size := 10000, buffer := [] },
    sequence_gap_threshold := 10,
    last_sequence_numbers := [],
    book_manager := { books := [] },
    book_update_counts := symbols.map (fun s => (s, 0)) }

/-- A handler that has already accepted one update at sequence 1. -/
def exampleHandler : FeedHandler :=
  ((mkHandler ["A"]).process_update (mkUpdate "A" 10 1 Side.bid UpdateType.add 1)).2

/-- A handler that accepted sequence 100 and then processed a stale
sequence-3 update for "A": last_observed_sequence drops to 3 while the
book's sequence_number stays 100. -/
def staleGapHandler : FeedHandler :=
  (((mkHandler ["A"]).process_update
      (mkUpdate "A" 10 1 Side.bid UpdateType.add 100)).2.process_update
    (mkUpdate "A" 11 1 Side.bid UpdateType.add 3)).2

/-- The follow-up update at sequence 20: its gap over last observed 3 is
16, above the threshold. -/
def gapUpdate : MarketUpdate :=
  mkUpdate "A" 12 1 Side.bid UpdateType.add 20

/-- A concrete non-empty buffer. -/
def exampleBuffer : CircularBuffer :=
  { max_size := 4,
    buffer := [mkUpdate "A" 10 1 Side.bid UpdateType.add 1,
               mkUpdate "A" 11 2 Side.bid UpdateType.add 2] }

/-- A concrete well-typed unpack record (8 slots, slot 3 carrying
bytes). -/
def exampleUnpacked : List PackVal :=
  [PackVal.int 1, PackVal.float 1, PackVal.float 1, PackVal.bytes "bid",
   PackVal.bytes "add", PackVal.int 1, PackVal.bytes "EX", PackVal.bytes "pad"]

/-- The update from_binary decodes from exampleUnpacked: its symbol is the
slot-3 text "bid", which is in fact the side value. -/
def exampleDecoded : MarketUpdate :=
  { timestamp := 1, symbol := "bid", price := 1, size := 1, side := Side.bid,
    update_type := UpdateType.add, sequence_number := 1, exchange_id := "EX" }

/-- Every element of setKey k v l is the new pair or an old element. -/
theorem mem_of_mem_setKey {k : ℚ} {v : OrderBookLevel} :
    ∀ {l : List (ℚ × OrderBookLevel)} {x}, x ∈ setKey k v l → x = (k, v) ∨ x ∈ l
  | [], x, hx => by
    simp [setKey] at hx
    exact Or.inl hx
  | (kk, vv) :: t, x, hx => by
    by_cases h1 : k < kk
    · rw [setKey, if_pos h1] at hx
      rcases List.mem_cons.1 hx with h | h
      · exact Or.inl h
      · exact Or.inr h
    · by_cases h2 : k = kk
      · rw [setKey, if_neg h1, if_pos h2] at hx
        rcases List.mem_cons.1 hx with h | h
        · exact Or.inl h
        · exact Or.inr (List.mem_cons_of_mem _ h)
      · rw [setKey, if_neg h1, if_neg h2] at hx
        rcases List.mem_cons.1 hx with h | h
        · exact Or.inr (h ▸ List.mem_cons_self _ _)
        · rcases mem_of_mem_setKey h with h3 | h3
          · exact Or.inl h3
          · exact Or.inr (List.mem_cons_of_mem _ h3)

/-- delKey yields a sublist. -/
theorem delKey_sublist (k : ℚ) : ∀ l : List (ℚ × OrderBookLevel), List.Sublist (delKey k l) l
  | [] => by simp [delKey]
  | (kk, vv) :: t => by
    by_cases h : k = kk
    · rw [delKey, if_pos h]
      exact List.sublist_cons_self _ _
    · rw [delKey, if_neg h]
      exact List.Sublist.cons₂ _ (delKey_sublist k t)

/-- setKey preserves strict ascending key order. -/
theorem pairwise_setKey {k : ℚ} {v : OrderBookLevel} :
    ∀ {l : List (ℚ × OrderBookLevel)}, l.Pairwise (fun a b => a.1 < b.1) →
      (setKey k v l).Pairwise (fun a b => a.1 < b.1)
  | [], _ => by simp [setKey]
  | (kk, vv) :: t, h => by
    rcases List.pairwise_cons.1 h with ⟨hall, ht⟩
    by_cases h1 : k < kk
    · rw [setKey, if_pos h1]
      refine List.pairwise_cons.2 ⟨?_, h⟩
      intro y hy
      rcases List.mem_cons.1 hy with rfl | hy2
      · exact h1
      · exact lt_trans h1 (hall y hy2)
    · by_cases h2 : k = kk
      · rw [setKey, if_neg h1, if_pos h2]
        refine List.pairwise_cons.2 ⟨?_, ht⟩
        intro y hy
        exact h2 ▸ hall y hy
      · rw [setKey, if_neg h1, if_neg h2]
        refine List.pairwise_cons.2 ⟨?_, pairwise_setKey ht⟩
        intro y hy
        rcases mem_of_mem_setKey hy with rfl | hy2
        · exact lt_of_le_of_ne (le_of_not_lt h1) (fun he => h2 he.symm)
        · exact hall y hy2

/-- setKey preserves side well-formedness when the new entry matches its
key and is a singleton. -/
theorem sideWF_setKey {l : List (ℚ × OrderBookLevel)} {k : ℚ} {v : OrderBookLevel}
    (h : SideWF l) (hv : v.price = k) (ho : v.orders.length = 1) :
    SideWF (setKey k v l) := by
  refine ⟨pairwise_setKey h.1, ?_⟩
  intro p hp
  rcases mem_of_mem_setKey hp with rfl | hp2
  · exact ⟨hv, ho⟩
  · exact h.2 p hp2

/-- delKey preserves side well-formedness. -/
theorem sideWF_delKey {l : List (ℚ × OrderBookLevel)} {k : ℚ} (h : SideWF l) :
    SideWF (delKey k l) :=
  ⟨h.1.sublist (delKey_sublist k l), fun p hp => h.2 p ((delKey_sublist k l).subset hp)⟩

/-- A fresh book is well-formed. -/
theorem wf_init (sym : String) : (OrderBook.init sym).WF := by
  constructor <;> exact ⟨List.Pairwise.nil, by simp [OrderBook.init]⟩

/-- applyAccepted preserves book well-formedness. -/
theorem wf_applyAccepted {b : OrderBook} (h : b.WF) (u : MarketUpdate) :
    (b.applyAccepted u).WF := by
  rcases h with ⟨hb, ha⟩
  unfold OrderBook.applyAccepted
  by_cases hs : u.side = Side.bid <;>
    cases hut : u.update_type <;>
      simp only [hs, hut, if_pos, if_neg, if_true, if_false, ite_true, ite_false]
  all_goals refine ⟨?_, ?_⟩ <;>
    first
      | exact hb
      | exact ha
      | exact sideWF_setKey hb rfl rfl
      | exact sideWF_setKey ha rfl rfl
      | exact sideWF_delKey hb
      | exact sideWF_delKey ha
      | (split
         · first
             | exact sideWF_setKey hb rfl rfl
             | exact sideWF_setKey ha rfl rfl
         · first
             | exact hb
             | exact ha)

/-- process_update preserves book well-formedness. -/
theorem wf_process_update {b : OrderBook} (h : b.WF) (u : MarketUpdate) :
    ((b.process_update u).2).WF := by
  unfold OrderBook.process_update
  split
  · exact h
  · split
    · exact h
    · exact wf_applyAccepted h u

/-- processAll preserves book well-formedness. -/
theorem wf_processAll :
    ∀ (us : List MarketUpdate) {b : OrderBook}, b.WF → (b.processAll us).WF := by
  intro us
  induction us with
  | nil => intro b h; exact h
  | cons u t ih => intro b h; exact ih (wf_process_update h u)

/-- Every reachable book is well-formed. -/
theorem wf_of_reachable {b : OrderBook} (h : ReachableBook b) : b.WF := by
  obtain ⟨sym, us, rfl⟩ := h
  exact wf_processAll us (wf_init sym)

/-- Claim C1: process_update returns false and leaves the whole book state
unchanged whenever the update's symbol mismatches or its sequence number is
stale; more generally, every update on which process_update returns false
leaves the book state exactly as it was (all-or-nothing application). -/
theorem process_update_reject_no_mutation (b : OrderBook) (u : MarketUpdate) :
    ((u.symbol ≠ b.symbol ∨ u.sequence_number ≤ b.sequence_number) →
      b.process_update u = (false, b)) ∧
    ((b.process_update u).1 = false → (b.process_update u).2 = b) := by
  unfold OrderBook.process_update
  by_cases hs : u.symbol = b.symbol
  · by_cases hq : u.sequence_number ≤ b.sequence_number
    · simp [hs, hq]
    · constructor
      · rintro (h | h)
        · exact absurd hs h
        · exact absurd h hq
      · simp [hs, hq]
  · simp [hs]

/-- Witness for C1 at a concrete wrong-symbol update. -/
theorem process_update_reject_no_mutation_witness :
    (OrderBook.init "A").process_update (mkUpdate "B" 1 1 Side.bid UpdateType.add 1) =
      (false, OrderBook.init "A") :=
  (process_update_reject_no_mutation (OrderBook.init "A")
      (mkUpdate "B" 1 1 Side.bid UpdateType.add 1)).1 (Or.inl (by decide))

/-- Claim C4: an accepted Modify whose price has no entry on the addressed
side returns true, leaves both sides exactly unchanged, and advances
last_sequence_number and last_update_time to the update's values. -/
theorem modify_absent_price_noop (b : OrderBook) (u : MarketUpdate)
    (h1 : u.update_type = UpdateType.modify)
    (h2 : u.symbol = b.symbol)
    (h3 : b.sequence_number < u.sequence_number)
    (h4 : hasKey u.price (if u.side = Side.bid then b.bids else b.asks) = false) :
    b.process_update u =
      (true, { b with last_update_time := u.timestamp,
                      sequence_number := u.sequence_number }) := by
  unfold OrderBook.process_update
  rw [if_neg (not_not_intro h2), if_neg (not_le.mpr h3)]
  unfold OrderBook.applyAccepted
  by_cases hs : u.side = Side.bid
  · rw [if_pos hs] at h4
    simp [hs, h1, h4]
  · rw [if_neg hs] at h4
    simp [hs, h1, h4]

/-- Witness for C4: a Modify at an empty price on a book holding one bid. -/
theorem modify_absent_price_noop_witness :
    (OrderBook.processAll (OrderBook.init "A")
        [mkUpdate "A" 10 1 Side.bid UpdateType.add 1]).process_update
      (mkUpdate "A" 11 5 Side.bid UpdateType.modify 2) =
    (true, { OrderBook.processAll (OrderBook.init "A")
               [mkUpdate "A" 10 1 Side.bid UpdateType.add 1] with
             last_update_time := 2, sequence_number := 2 }) :=
  modify_absent_price_noop _ _ rfl (by decide) (by decide) (by decide)

/-- Claim C7: clear empties both sides, keeps sequence_number and
last_update_time unchanged, and a cleared book still rejects every update
whose sequence number is at or below the retained one. -/
theorem clear_frame_and_stale_reject (b : OrderBook) :
    b.clear.bids = [] ∧ b.clear.asks = [] ∧
    b.clear.sequence_number = b.sequence_number ∧
    b.clear.last_update_time = b.last_update_time ∧
    ∀ u : MarketUpdate, u.sequence_number ≤ b.sequence_number →
      (b.clear.process_update u).1 = false := by
  refine ⟨rfl, rfl, rfl, rfl, ?_⟩
  intro u hu
  by_cases hs : u.symbol = b.symbol
  · simp [OrderBook.process_update, OrderBook.clear, hs, hu]
  · simp [OrderBook.process_update, OrderBook.clear, hs]

/-- Witness for C7: the cleared example book still rejects sequence 2. -/
theorem clear_frame_and_stale_reject_witness :
    (exampleBook.clear.process_update (mkUpdate "A" 9 1 Side.bid UpdateType.add 2)).1 =
      false :=
  (clear_frame_and_stale_reject exampleBook).2.2.2.2
    (mkUpdate "A" 9 1 Side.bid UpdateType.add 2) (by decide)

/-- Counterexample to C6 as stated: on a buffer holding two updates,
get_latest 0 returns both of them, not min(0, 2) = 0 of them. -/
theorem get_latest_zero_counterexample :
    ¬ (exampleBuffer.get_latest 0).length = min 0 exampleBuffer.buffer.length := by
  decide

/-- Claim C6 amended: for every n >= 1, get_latest n is the
length-min(n, count) suffix of the buffer, i.e. the most recently added
updates in chronological order; get_latest 0 returns the entire buffer
(Python slice [-0:] is the whole list), not no updates. -/
theorem get_latest_amended (b : CircularBuffer) (n : Nat) :
    (1 ≤ n →
      b.get_latest n = b.buffer.drop (b.buffer.length - n) ∧
      (b.get_latest n).length = min n b.buffer.length ∧
      List.IsSuffix (b.get_latest n) b.buffer) ∧
    b.get_latest 0 = b.buffer := by
  constructor
  · intro hn
    have hne : n ≠ 0 := Nat.one_le_iff_ne_zero.mp hn
    refine ⟨by simp [CircularBuffer.get_latest, hne], ?_, ?_⟩
    · simp only [CircularBuffer.get_latest, hne, if_false, ite_false, List.length_drop]
      omega
    · simp only [CircularBuffer.get_latest, hne, if_false, ite_false]
      exact List.drop_suffix _ _
  · simp [CircularBuffer.get_latest]

/-- Witness for C6 amended at the concrete two-element buffer with n = 1. -/
theorem get_latest_amended_witness :
    exampleBuffer.get_latest 1 =
        exampleBuffer.buffer.drop (exampleBuffer.buffer.length - 1) ∧
    (exampleBuffer.get_latest 1).length = min 1 exampleBuffer.buffer.length ∧
    List.IsSuffix (exampleBuffer.get_latest 1) exampleBuffer.buffer :=
  (get_latest_amended exampleBuffer 1).1 (by decide)

/-- Looking a key up right after updKey stores its value finds it. -/
theorem alistGet?_updKey_self {κ α : Type} [DecidableEq κ] (k : κ) (v : α) :
    ∀ l : List (κ × α), alistGet? (updKey k v l) k = some v
  | [] => by simp [updKey, alistGet?]
  | (kk, vv) :: t => by
    by_cases h : kk = k
    · simp [updKey, h, alistGet?]
    · have ih := alistGet?_updKey_self k v t
      simp only [updKey, h, if_false, ite_false, alistGet?] at ih ⊢
      simp only [List.find?_cons]
      have : (decide (kk = k)) = false := by simp [h]
      simp [this, ih]

/-- The element reported by getLast? is a member of the list. -/
theorem mem_of_getLast?_eq {α : Type} {l : List α} {y : α}
    (h : l.getLast? = some y) : y ∈ l := by
  obtain ⟨hne, rfl⟩ := List.mem_getLast?_eq_getLast h
  exact List.getLast_mem hne

/-- The element reported by head? is a member of the list. -/
theorem mem_of_head?_eq {α : Type} {l : List α} {y : α}
    (h : l.head? = some y) : y ∈ l := by
  cases l with
  | nil => exact absurd h (by simp)
  | cons a t =>
    have ha : a = y := by simpa using h
    exact ha ▸ List.mem_cons_self a t

/-- In a strictly ascending association list, every key is at most the
last entry's key. -/
theorem key_le_getLast_of_pairwise :
    ∀ {l : List (ℚ × OrderBookLevel)},
      l.Pairwise (fun a b => a.1 < b.1) →
      ∀ x ∈ l, ∀ y, l.getLast? = some y → x.1 ≤ y.1
  | [], _, x, hx, _, _ => absurd hx (List.not_mem_nil x)
  | a :: t, h, x, hx, y, hy => by
    rcases List.pairwise_cons.1 h with ⟨hall, ht⟩
    cases t with
    | nil =>
      have hxa : x = a := by simpa using hx
      have hya : a = y := by simpa using hy
      rw [hxa, ← hya]
    | cons c t2 =>
      have hy2 : (c :: t2).getLast? = some y := by
        rw [List.getLast?_cons_cons] at hy
        exact hy
      rcases List.mem_cons.1 hx with rfl | hx2
      · exact le_of_lt (hall y (mem_of_getLast?_eq hy2))
      · exact key_le_getLast_of_pairwise ht x hx2 y hy2

/-- In a strictly ascending association list, the head's key is at most
every key. -/
theorem head_key_le_of_pairwise {l : List (ℚ × OrderBookLevel)}
    (h : l.Pairwise (fun a b => a.1 < b.1)) :
    ∀ x ∈ l, ∀ y, l.head? = some y → y.1 ≤ x.1 := by
  intro x hx y hy
  cases l with
  | nil => exact absurd hx (List.not_mem_nil x)
  | cons a t =>
    have hya : a = y := by simpa using hy
    subst hya
    rcases List.mem_cons.1 hx with rfl | hx2
    · exact le_refl _
    · exact le_of_lt ((List.pairwise_cons.1 h).1 x hx2)

/-- Claim C2: on every reachable book state, get_top_of_book returns as
best bid the entry with the numerically highest bid price (none when the
bid side is empty) and as best ask the entry with the numerically lowest
ask price (none when the ask side is empty). -/
theorem get_top_of_book_correct (b : OrderBook) (hr : ReachableBook b) :
    (b.get_top_of_book.1 = none ↔ b.bids = []) ∧
    (∀ lvl, b.get_top_of_book.1 = some lvl →
      lvl.price ∈ b.bids.map Prod.fst ∧ ∀ q ∈ b.bids.map Prod.fst, q ≤ lvl.price) ∧
    (b.get_top_of_book.2 = none ↔ b.asks = []) ∧
    (∀ lvl, b.get_top_of_book.2 = some lvl →
      lvl.price ∈ b.asks.map Prod.fst ∧ ∀ q ∈ b.asks.map Prod.fst, lvl.price ≤ q) := by
  obtain ⟨⟨hbp, hbv⟩, ⟨hap, hav⟩⟩ := wf_of_reachable hr
  have hbid_eq : b.get_top_of_book.1 = b.bids.getLast?.map (fun p =>
      { price := p.2.price, size := p.2.total_size,
        order_count := p.2.order_count : PriceLevel }) := rfl
  have hask_eq : b.get_top_of_book.2 = b.asks.head?.map (fun p =>
      { price := p.2.price, size := p.2.total_size,
        order_count := p.2.order_count : PriceLevel }) := rfl
  refine ⟨?_, ?_, ?_, ?_⟩
  · rw [hbid_eq]
    simp [List.getLast?_eq_none_iff]
  · intro lvl hsome
    rw [hbid_eq] at hsome
    obtain ⟨p, hp_last, hp_lvl⟩ := Option.map_eq_some'.1 hsome
    have hp_mem : p ∈ b.bids := mem_of_getLast?_eq hp_last
    have hprice : lvl.price = p.1 := by
      rw [← hp_lvl]
      exact (hbv p hp_mem).1
    constructor
    · exact List.mem_map.2 ⟨p, hp_mem, hprice.symm⟩
    · intro q hq
      obtain ⟨r, hr_mem, hr_eq⟩ := List.mem_map.1 hq
      rw [← hr_eq, hprice]
      exact key_le_getLast_of_pairwise hbp r hr_mem p hp_last
  · rw [hask_eq]
    simp [List.head?_eq_none_iff]
  · intro lvl hsome
    rw [hask_eq] at hsome
    obtain ⟨p, hp_head, hp_lvl⟩ := Option.map_eq_some'.1 hsome
    have hp_mem : p ∈ b.asks := mem_of_head?_eq hp_head
    have hprice : lvl.price = p.1 := by
      rw [← hp_lvl]
      exact (hav p hp_mem).1
    constructor
    · exact List.mem_map.2 ⟨p, hp_mem, hprice.symm⟩
    · intro q hq
      obtain ⟨r, hr_mem, hr_eq⟩ := List.mem_map.1 hq
      rw [← hr_eq, hprice]
      exact head_key_le_of_pairwise hap r hr_mem p hp_head

/-- Witness for C2 at the concrete reachable example book. -/
theorem get_top_of_book_correct_witness :
    (exampleBook.get_top_of_book.1 = none ↔ exampleBook.bids = []) ∧
    (∀ lvl, exampleBook.get_top_of_book.1 = some lvl →
      lvl.price ∈ exampleBook.bids.map Prod.fst ∧
      ∀ q ∈ exampleBook.bids.map Prod.fst, q ≤ lvl.price) ∧
    (exampleBook.get_top_of_book.2 = none ↔ exampleBook.asks = []) ∧
    (∀ lvl, exampleBook.get_top_of_book.2 = some lvl →
      lvl.price ∈ exampleBook.asks.map Prod.fst ∧
      ∀ q ∈ exampleBook.asks.map Prod.fst, lvl.price ≤ q) :=
  get_top_of_book_correct exampleBook ⟨"A", exampleUpdates, rfl⟩

/-- Claim C10: after OrderBookManager.process_update a book for the
update's symbol is always registered — even when the update is rejected;
in particular a sequence-0 update for an unseen symbol is rejected by the
freshly created book, which nevertheless stays registered and empty. -/
theorem manager_registers_book (m : OrderBookManager) (u : MarketUpdate) :
    (∃ bk, ((m.process_update u).2).get_book u.symbol = some bk) ∧
    (u.sequence_number = 0 → m.get_book u.symbol = none →
      (m.process_update u).1 = false ∧
      ((m.process_update u).2).get_book u.symbol = some (OrderBook.init u.symbol)) := by
  constructor
  · refine ⟨((m.get_or_create_book u.symbol).1.process_update u).2, ?_⟩
    simp only [OrderBookManager.process_update, OrderBookManager.get_book]
    exact alistGet?_updKey_self _ _ _
  · intro h0 hnone
    have hrej : (m.get_or_create_book u.symbol).1.process_update u =
        (false, OrderBook.init u.symbol) := by
      simp only [OrderBookManager.get_or_create_book, hnone]
      simp [OrderBook.process_update, OrderBook.init, h0]
    constructor
    · simp only [OrderBookManager.process_update, hrej]
    · simp only [OrderBookManager.process_update, OrderBookManager.get_book, hrej]
      exact alistGet?_updKey_self _ _ _

/-- Looking a key up right after setKey stores its value finds it. -/
theorem getKeyQ?_setKey_self (k : ℚ) (v : OrderBookLevel) :
    ∀ l : List (ℚ × OrderBookLevel), getKeyQ? k (setKey k v l) = some v
  | [] => by simp [setKey, getKeyQ?]
  | (kk, vv) :: t => by
    by_cases h1 : k < kk
    · simp [setKey, h1, getKeyQ?]
    · by_cases h2 : k = kk
      · simp [setKey, h1, h2, getKeyQ?]
      · have ih := getKeyQ?_setKey_self k v t
        have hkk : ¬ kk = k := fun he => h2 he.symm
        simp only [setKey, h1, h2, if_false, ite_false, getKeyQ?,
          List.find?_cons] at ih ⊢
        simp [hkk, ih]

/-- Claim C8: on every reachable book state, every ledger entry on either
side holds exactly one order contribution, so every PriceLevel produced by
get_price_levels, get_top_of_book or get_snapshot has order_count = 1 and
size equal to that single contribution's size; and an accepted Add (or
Modify at a present price) overwrites the whole entry at that price with
exactly the singleton contribution keyed by that update's sequence
number. -/
theorem levels_single_contribution (b : OrderBook) (hr : ReachableBook b) :
    (∀ p ∈ b.bids ++ b.asks, ∃ oid sz, p.2.orders = [(oid, sz)] ∧
      p.2.total_size = sz ∧ p.2.order_count = 1) ∧
    (∀ side depth, ∀ pl ∈ b.get_price_levels side depth, pl.order_count = 1) ∧
    (∀ pl, b.get_top_of_book.1 = some pl → pl.order_count = 1) ∧
    (∀ pl, b.get_top_of_book.2 = some pl → pl.order_count = 1) ∧
    (∀ pl ∈ b.get_snapshot.bids ++ b.get_snapshot.asks, pl.order_count = 1) ∧
    (∀ u : MarketUpdate, u.symbol = b.symbol →
      b.sequence_number < u.sequence_number →
      (u.update_type = UpdateType.add ∨
        (u.update_type = UpdateType.modify ∧
          hasKey u.price (if u.side = Side.bid then b.bids else b.asks) = true)) →
      getKeyQ? u.price
          (if u.side = Side.bid then ((b.process_update u).2).bids
           else ((b.process_update u).2).asks) =
        some { price := u.price,
               orders := [(toString u.sequence_number, u.size)] }) := by
  obtain ⟨⟨hbp, hbv⟩, ⟨hap, hav⟩⟩ := wf_of_reachable hr
  have hent : ∀ p ∈ b.bids ++ b.asks, ∃ oid sz, p.2.orders = [(oid, sz)] ∧
      p.2.total_size = sz ∧ p.2.order_count = 1 := by
    intro p hp
    have hlen : p.2.orders.length = 1 := by
      rcases List.mem_append.1 hp with h | h
      · exact (hbv p h).2
      · exact (hav p h).2
    obtain ⟨x, hx⟩ := List.length_eq_one.1 hlen
    refine ⟨x.1, x.2, by rw [hx], ?_, ?_⟩
    · simp [OrderBookLevel.total_size, hx]
    · simp [OrderBookLevel.order_count, hx]
  have hone : ∀ p, p ∈ b.bids ++ b.asks → p.2.order_count = 1 := by
    intro p hp
    obtain ⟨_, _, _, _, h⟩ := hent p hp
    exact h
  have hpl : ∀ side depth, ∀ pl ∈ b.get_price_levels side depth, pl.order_count = 1 := by
    intro side depth pl hpl
    unfold OrderBook.get_price_levels at hpl
    by_cases hs : side = Side.bid
    · simp only [hs, ite_true] at hpl
      obtain ⟨p, hp_mem, hp_eq⟩ := List.mem_map.1 hpl
      have hp2 : p ∈ b.bids := List.mem_reverse.1 (List.mem_of_mem_take hp_mem)
      rw [← hp_eq]
      exact hone p (List.mem_append.2 (Or.inl hp2))
    · simp only [hs, ite_false] at hpl
      obtain ⟨p, hp_mem, hp_eq⟩ := List.mem_map.1 hpl
      have hp2 : p ∈ b.asks := List.mem_of_mem_take hp_mem
      rw [← hp_eq]
      exact hone p (List.mem_append.2 (Or.inr hp2))
  refine ⟨hent, hpl, ?_, ?_, ?_, ?_⟩
  · intro pl hsome
    obtain ⟨p, hp_last, hp_eq⟩ := Option.map_eq_some'.1 hsome
    rw [← hp_eq]
    exact hone p (List.mem_append.2 (Or.inl (mem_of_getLast?_eq hp_last)))
  · intro pl hsome
    obtain ⟨p, hp_head, hp_eq⟩ := Option.map_eq_some'.1 hsome
    rw [← hp_eq]
    exact hone p (List.mem_append.2 (Or.inr (mem_of_head?_eq hp_head)))
  · intro pl hpl2
    rcases List.mem_append.1 hpl2 with h | h
    · exact hpl Side.bid 10 pl h
    · exact hpl Side.ask 10 pl h
  · intro u husym huseq hcase
    unfold OrderBook.process_update
    rw [if_neg (not_not_intro husym), if_neg (not_le.mpr huseq)]
    unfold OrderBook.applyAccepted
    by_cases hs : u.side = Side.bid
    · rw [if_pos hs] at hcase
      rcases hcase with hadd | ⟨hmod, hk⟩
      · simp only [hs, ite_true, hadd]
        exact getKeyQ?_setKey_self _ _ _
      · simp only [hs, ite_true, hmod, hk]
        exact getKeyQ?_setKey_self _ _ _
    · rw [if_neg hs] at hcase
      rcases hcase with hadd | ⟨hmod, hk⟩
      · simp only [hs, ite_false, hadd]
        exact getKeyQ?_setKey_self _ _ _
      · simp only [hs, ite_false, hmod, hk]
        exact getKeyQ?_setKey_self _ _ _

/-- Witness for C8: a Modify overwriting the present 12-price bid entry of
the example book with the singleton contribution of sequence 5. -/
theorem levels_single_contribution_witness :
    getKeyQ? (mkUpdate "A" 12 7 Side.bid UpdateType.modify 5).price
      (if (mkUpdate "A" 12 7 Side.bid UpdateType.modify 5).side = Side.bid then
        ((exampleBook.process_update (mkUpdate "A" 12 7 Side.bid UpdateType.modify 5)).2).bids
       else
        ((exampleBook.process_update (mkUpdate "A" 12 7 Side.bid UpdateType.modify 5)).2).asks) =
      some { price := (mkUpdate "A" 12 7 Side.bid UpdateType.modify 5).price,
             orders := [(toString
                 (mkUpdate "A" 12 7 Side.bid UpdateType.modify 5).sequence_number,
               (mkUpdate "A" 12 7 Side.bid UpdateType.modify 5).size)] } :=
  (levels_single_contribution exampleBook ⟨"A", exampleUpdates, rfl⟩).2.2.2.2.2
    (mkUpdate "A" 12 7 Side.bid UpdateType.modify 5) (by decide) (by decide)
    (Or.inr ⟨rfl, by decide⟩)

/-- Witness for C10: the empty manager with a sequence-0 update. -/
theorem manager_registers_book_witness :
    (({ books := [] } : OrderBookManager).process_update
        (mkUpdate "A" 10 1 Side.bid UpdateType.add 0)).1 = false ∧
    ((({ books := [] } : OrderBookManager).process_update
        (mkUpdate "A" 10 1 Side.bid UpdateType.add 0)).2).get_book "A" =
      some (OrderBook.init "A") :=
  (manager_registers_book { books := [] }
      (mkUpdate "A" 10 1 Side.bid UpdateType.add 0)).2 rfl rfl

/-- The book registered for the update's symbol after a manager step is
exactly the result of processing the update on the fetched-or-created
book. -/
theorem manager_process_get_book (m : OrderBookManager) (u : MarketUpdate) :
    ((m.process_update u).2).get_book u.symbol =
      some ((m.get_or_create_book u.symbol).1.process_update u).2 := by
  simp only [OrderBookManager.process_update, OrderBookManager.get_book]
  exact alistGet?_updKey_self _ _ _

/-- Counterexample to C3 as stated: after accepting sequence 100 and then
a stale sequence-3 update for "A" (which drops last_observed_sequence to
3 while the book's sequence_number stays 100), the sequence-20 update has
gap 16 >= 11, the book is cleared — but clear() retains sequence_number
100, so the cleared book rejects 20 <= 100 and the update is NOT applied:
the stored book ends empty at sequence 100, not equal to the emptied book
with the update applied. -/
theorem gap_reset_update_not_applied_counterexample :
    (11 ≤ gapUpdate.sequence_number - staleGapHandler.lastSeq "A" - 1) ∧
    ((staleGapHandler.process_update gapUpdate).2).book_manager.get_book "A" =
      some { symbol := "A", bids := [], asks := [], last_update_time := 100,
             sequence_number := 100 } ∧
    ((staleGapHandler.process_update gapUpdate).2).book_manager.get_book "A" ≠
      some ((((staleGapHandler.book_manager.get_or_create_book "A").1).clear).applyAccepted
        gapUpdate) := by
  refine ⟨by decide, by decide, by decide⟩

/-- Claim C3 amended: with the gap threshold at 10, an update whose
computed gap (sequence_number - last_observed - 1) is exactly 10 leaves
the book uncleared and is applied exactly when its sequence number
exceeds the book's current sequence number (otherwise the book drops it
unchanged); an update whose gap is 11 or more always clears the symbol's
book (sequence retained) and is then applied on the emptied book exactly
when its sequence number exceeds the retained one — otherwise the
cleared book rejects it and stays empty. -/
theorem gap_boundary_amended (h : FeedHandler) (u : MarketUpdate) (b : OrderBook)
    (hthr : h.sequence_gap_threshold = 10)
    (hsym : h.symbols.contains u.symbol = true)
    (hbook : h.book_manager.get_book u.symbol = some b)
    (hbsym : b.symbol = u.symbol) :
    (u.sequence_number - h.lastSeq u.symbol - 1 = 10 →
      ((h.process_update u).2).book_manager.get_book u.symbol =
        some (if b.sequence_number < u.sequence_number then b.applyAccepted u
              else b)) ∧
    (11 ≤ u.sequence_number - h.lastSeq u.symbol - 1 →
      ((h.process_update u).2).book_manager.get_book u.symbol =
        some (if b.sequence_number < u.sequence_number then (b.clear).applyAccepted u
              else b.clear)) := by
  have hnn : ¬ ¬ h.symbols.contains u.symbol = true := not_not_intro hsym
  constructor
  · intro hgap
    have h0 : (0 : Int) < u.sequence_number - h.lastSeq u.symbol - 1 := by omega
    have hnt : ¬ h.sequence_gap_threshold <
        u.sequence_number - h.lastSeq u.symbol - 1 := by
      rw [hthr]; omega
    simp only [FeedHandler.process_update, if_neg hnn, if_pos h0, if_neg hnt]
    rw [manager_process_get_book]
    have hgc : h.book_manager.get_or_create_book u.symbol = (b, h.book_manager) := by
      simp [OrderBookManager.get_or_create_book, hbook]
    rw [hgc]
    by_cases hacc : u.sequence_number ≤ b.sequence_number
    · have hrej : b.process_update u = (false, b) := by
        unfold OrderBook.process_update
        rw [if_neg (not_not_intro hbsym.symm), if_pos hacc]
      rw [hrej, if_neg (not_lt.mpr hacc)]
    · have hap : b.process_update u = (true, b.applyAccepted u) := by
        unfold OrderBook.process_update
        rw [if_neg (not_not_intro hbsym.symm), if_neg hacc]
      rw [hap, if_pos (not_le.mp hacc)]
  · intro hgap
    have h0 : (0 : Int) < u.sequence_number - h.lastSeq u.symbol - 1 := by omega
    have ht : h.sequence_gap_threshold <
        u.sequence_number - h.lastSeq u.symbol - 1 := by
      rw [hthr]; omega
    simp only [FeedHandler.process_update, if_neg hnn, if_pos h0, if_pos ht]
    rw [manager_process_get_book]
    have hlg : handle_large_sequence_gap h.book_manager u.symbol =
        { books := updKey u.symbol b.clear h.book_manager.books } := by
      simp [handle_large_sequence_gap, hbook]
    rw [hlg]
    have hgb : ({ books := updKey u.symbol b.clear h.book_manager.books } :
        OrderBookManager).get_book u.symbol = some b.clear :=
      alistGet?_updKey_self _ _ _
    have hgc : ({ books := updKey u.symbol b.clear h.book_manager.books } :
        OrderBookManager).get_or_create_book u.symbol =
        (b.clear, { books := updKey u.symbol b.clear h.book_manager.books }) := by
      simp [OrderBookManager.get_or_create_book, hgb]
    rw [hgc]
    have hcs : ¬ u.symbol ≠ b.clear.symbol := not_not_intro hbsym.symm
    by_cases hacc : u.sequence_number ≤ b.sequence_number
    · have hacc2 : u.sequence_number ≤ b.clear.sequence_number := hacc
      have hrej : b.clear.process_update u = (false, b.clear) := by
        unfold OrderBook.process_update
        rw [if_neg hcs, if_pos hacc2]
      rw [hrej, if_neg (not_lt.mpr hacc)]
    · have hacc2 : ¬ u.sequence_number ≤ b.clear.sequence_number := hacc
      have hap : b.clear.process_update u = (true, (b.clear).applyAccepted u) := by
        unfold OrderBook.process_update
        rw [if_neg hcs, if_neg hacc2]
      rw [hap, if_pos (not_le.mp hacc)]

/-- Witness for C3 amended: on a handler that has accepted sequence 1 for
"A", an update at sequence 12 (gap exactly 10) keeps the book uncleared
and, since 1 < 12, is applied to it. -/
theorem gap_boundary_amended_witness :
    ((exampleHandler.process_update
        (mkUpdate "A" 11 2 Side.bid UpdateType.add 12)).2).book_manager.get_book "A" =
      some (if (((OrderBook.init "A").process_update
              (mkUpdate "A" 10 1 Side.bid UpdateType.add 1)).2).sequence_number <
            (mkUpdate "A" 11 2 Side.bid UpdateType.add 12).sequence_number then
          (((OrderBook.init "A").process_update
              (mkUpdate "A" 10 1 Side.bid UpdateType.add 1)).2).applyAccepted
            (mkUpdate "A" 11 2 Side.bid UpdateType.add 12)
        else ((OrderBook.init "A").process_update
          (mkUpdate "A" 10 1 Side.bid UpdateType.add 1)).2) :=
  (gap_boundary_amended exampleHandler (mkUpdate "A" 11 2 Side.bid UpdateType.add 12)
      (((OrderBook.init "A").process_update
        (mkUpdate "A" 10 1 Side.bid UpdateType.add 1)).2)
      (by decide) (by decide) (by decide) (by decide)).1 (by decide)

/-- Claim C5 amended: for every update on a configured symbol the
per-symbol last_observed_sequence is set to update.sequence_number
regardless of gap outcome, so it is non-decreasing across updates whose
sequence numbers do not decrease — but an update carrying a lower
sequence number lowers it to that value (the recorded value is not
unconditionally non-decreasing). -/
theorem last_observed_recorded (h : FeedHandler) (u : MarketUpdate)
    (hsym : h.symbols.contains u.symbol = true) :
    alistGet? ((h.process_update u).2).last_sequence_numbers u.symbol =
      some u.sequence_number ∧
    ((h.process_update u).2).lastSeq u.symbol = u.sequence_number ∧
    (h.lastSeq u.symbol ≤ u.sequence_number →
      h.lastSeq u.symbol ≤ ((h.process_update u).2).lastSeq u.symbol) := by
  have hnn : ¬ ¬ h.symbols.contains u.symbol = true := not_not_intro hsym
  have hset : alistGet? ((h.process_update u).2).last_sequence_numbers u.symbol =
      some u.sequence_number := by
    simp only [FeedHandler.process_update, if_neg hnn]
    exact alistGet?_updKey_self _ _ _
  have hlast : ((h.process_update u).2).lastSeq u.symbol = u.sequence_number := by
    unfold FeedHandler.lastSeq
    rw [hset]
    rfl
  exact ⟨hset, hlast, fun hle => hlast ▸ hle⟩

/-- Witness for C5 amended at a fresh handler and a sequence-5 update. -/
theorem last_observed_recorded_witness :
    alistGet? (((mkHandler ["A"]).process_update
        (mkUpdate "A" 10 1 Side.bid UpdateType.add 5)).2).last_sequence_numbers "A" =
      some 5 :=
  (last_observed_recorded (mkHandler ["A"])
      (mkUpdate "A" 10 1 Side.bid UpdateType.add 5) (by decide)).1

/-- Counterexample to C5 as stated: processing sequence 5 and then
sequence 3 for symbol "A" drops the recorded last_observed_sequence from
5 to 3, so it is not non-decreasing when a lower sequence number
arrives. -/
theorem last_observed_not_monotone_counterexample :
    (((mkHandler ["A"]).process_update
        (mkUpdate "A" 10 1 Side.bid UpdateType.add 5)).2).lastSeq "A" = 5 ∧
    ((((mkHandler ["A"]).process_update
        (mkUpdate "A" 10 1 Side.bid UpdateType.add 5)).2).process_update
        (mkUpdate "A" 10 1 Side.bid UpdateType.add 3)).2.lastSeq "A" = 3 ∧
    ¬ (5 : Int) ≤ 3 := by
  refine ⟨by decide, by decide, by decide⟩

/-- Bind on a successful Except step reduces to the continuation. -/
theorem except_ok_bind {ε α β : Type} (a : α) (f : α → Except ε β) :
    (Except.ok a : Except ε α) >>= f = f a := rfl

/-- Bind on a failed Except step propagates the error. -/
theorem except_error_bind {ε α β : Type} (e : ε) (f : α → Except ε β) :
    (Except.error e : Except ε α) >>= f = Except.error e := rfl

/-- decodeVal only succeeds on a bytes slot, returning its contents. -/
theorem decodeVal_ok {x : PackVal} {s : String} (h : decodeVal x = Except.ok s) :
    x = PackVal.bytes s := by
  cases x with
  | int n => exact Except.noConfusion h
  | float q => exact Except.noConfusion h
  | bytes s2 =>
    have hs : s2 = s := by simpa [decodeVal] using h
    rw [hs]

/-- Whenever from_binary succeeds, the symbol it returns is the
NUL-stripped decode of slot 3 of the unpacked record. -/
theorem from_binary_symbol_from_slot3 (data : List PackVal) (v : MarketUpdate)
    (hok : MarketUpdate.from_binary data = Except.ok v) :
    ∃ raw, data.getD 3 (PackVal.int 0) = PackVal.bytes raw ∧
      v.symbol = stripNull raw := by
  unfold MarketUpdate.from_binary at hok
  by_cases hlen : data.length ≠ packFormat.length
  · rw [if_pos hlen] at hok
    exact Except.noConfusion hok
  rw [if_neg hlen] at hok
  cases h0 : expectInt (data.getD 0 (PackVal.int 0)) with
  | error e =>
    rw [h0] at hok
    simp only [except_error_bind] at hok
    exact Except.noConfusion hok
  | ok ts =>
  rw [h0] at hok
  simp only [except_ok_bind] at hok
  cases h1 : expectFloat (data.getD 1 (PackVal.int 0)) with
  | error e =>
    rw [h1] at hok
    simp only [except_error_bind] at hok
    exact Except.noConfusion hok
  | ok price =>
  rw [h1] at hok
  simp only [except_ok_bind] at hok
  cases h2 : expectFloat (data.getD 2 (PackVal.int 0)) with
  | error e =>
    rw [h2] at hok
    simp only [except_error_bind] at hok
    exact Except.noConfusion hok
  | ok size =>
  rw [h2] at hok
  simp only [except_ok_bind] at hok
  cases h3 : decodeVal (data.getD 3 (PackVal.int 0)) with
  | error e =>
    rw [h3] at hok
    simp only [except_error_bind] at hok
    exact Except.noConfusion hok
  | ok raw =>
  rw [h3] at hok
  simp only [except_ok_bind] at hok
  cases h4 : parseSide (stripNull raw) with
  | error e =>
    rw [h4] at hok
    simp only [except_error_bind] at hok
    exact Except.noConfusion hok
  | ok side =>
  rw [h4] at hok
  simp only [except_ok_bind] at hok
  cases h5 : decodeVal (data.getD 4 (PackVal.int 0)) with
  | error e =>
    rw [h5] at hok
    simp only [except_error_bind] at hok
    exact Except.noConfusion hok
  | ok utRaw =>
  rw [h5] at hok
  simp only [except_ok_bind] at hok
  cases h6 : parseUpdateType (stripNull utRaw) with
  | error e =>
    rw [h6] at hok
    simp only [except_error_bind] at hok
    exact Except.noConfusion hok
  | ok ut =>
  rw [h6] at hok
  simp only [except_ok_bind] at hok
  cases h7 : expectInt (data.getD 5 (PackVal.int 0)) with
  | error e =>
    rw [h7] at hok
    simp only [except_error_bind] at hok
    exact Except.noConfusion hok
  | ok seq =>
  rw [h7] at hok
  simp only [except_ok_bind] at hok
  cases h8 : decodeVal (data.getD 6 (PackVal.int 0)) with
  | error e =>
    rw [h8] at hok
    simp only [except_error_bind] at hok
    exact Except.noConfusion hok
  | ok exRaw =>
  rw [h8] at hok
  simp only [except_ok_bind] at hok
  injection hok with hv
  exact ⟨raw, decodeVal_ok h3, by rw [← hv]⟩

/-- Claim C9: to_binary places the single-character side value in the
float slot at index 3 of the fixed-width format, never passes the symbol
to struct.pack at all (the packed values are invariant under changing the
symbol), from_binary reads the symbol back from that same slot 3, and the
round-trip from_binary(to_binary u) never reconstructs u — to_binary in
fact always fails, passing 7 values for the 8 format slots. -/
theorem binary_roundtrip_broken (u : MarketUpdate) (s : String) :
    packFormat.get? 3 = some (SlotType.float 4) ∧
    u.to_binary_args.get? 3 = some (PackVal.bytes (sideStr u.side)) ∧
    MarketUpdate.to_binary_args { u with symbol := s } = u.to_binary_args ∧
    u.to_binary = Except.error "pack expected a different number of items" ∧
    (∀ data v, MarketUpdate.from_binary data = Except.ok v →
      ∃ raw, data.getD 3 (PackVal.int 0) = PackVal.bytes raw ∧
        v.symbol = stripNull raw) ∧
    Except.bind u.to_binary MarketUpdate.from_binary ≠ Except.ok u := by
  refine ⟨rfl, rfl, rfl, rfl, ?_, ?_⟩
  · exact fun data v hok => from_binary_symbol_from_slot3 data v hok
  · have he : Except.bind u.to_binary MarketUpdate.from_binary =
        Except.error "pack expected a different number of items" := rfl
    rw [he]
    intro hcontra
    exact Except.noConfusion hcontra

/-- Witness for C9: a well-typed 8-slot record whose slot 3 carries the
bytes "bid" decodes successfully, and the decoded symbol is exactly that
slot-3 text. -/
theorem binary_roundtrip_broken_witness :
    ∃ raw, exampleUnpacked.getD 3 (PackVal.int 0) = PackVal.bytes raw ∧
      exampleDecoded.symbol = stripNull raw :=
  (binary_roundtrip_broken (mkUpdate "A" 1 1 Side.bid UpdateType.add 1) "B").2.2.2.2.1
    exampleUnpacked exampleDecoded rfl

end MDP
